import Mathlib

/-!
Verification of the fetch → normalize → export pipeline of the rate-exporter
repository (modules `src/normalizer.py`, `src/exporter_xml.py`, `src/fetcher.py`,
`src/service.py`, `src/utils.py`).

Modelling conventions:
* Python floats are modelled as exact rationals (`ℚ`); binary floating-point
  rounding of individual operations is abstracted away (the spec itself only
  asks for equality "within floating rounding tolerance").
* Python strings are Lean `String`s; the source only manipulates ASCII
  tickers and decimal digit strings, so ASCII-only case conversion suffices.
* A Python function that can raise is embedded with `Except`; `Except.error`
  marks an uncaught exception, `Except.ok none` a `return None`.
* Effectful state (the exporter's `_last_valid_xml`, the file system seen by
  the atomic write) is passed explicitly; fallible OS steps are driven by
  explicit failure-injection flags.
-/

namespace RateExporter

/-! ### Reducible rational arithmetic

Batteries marks `Rat.add`, `Rat.sub`, `Rat.mul` and `Rat.inv` `@[irreducible]`,
which prevents concrete evaluation by `decide`.  The embedded code therefore
uses the following cross-multiplication equivalents, each proved equal to the
corresponding algebraic operation so that theorem statements and proofs can
work with ordinary `+ - * /`. -/

def qAdd (a b : ℚ) : ℚ := mkRat (a.num * b.den + b.num * a.den) (a.den * b.den)

def qSub (a b : ℚ) : ℚ := mkRat (a.num * b.den - b.num * a.den) (a.den * b.den)

def qMul (a b : ℚ) : ℚ := mkRat (a.num * b.num) (a.den * b.den)

def qDiv (a b : ℚ) : ℚ := Rat.divInt (a.num * b.den) (a.den * b.num)

def qOfNat (n : ℕ) : ℚ := mkRat n 1

theorem qAdd_eq (a b : ℚ) : qAdd a b = a + b := by
  rw [qAdd, Rat.mkRat_eq_div]
  conv_rhs => rw [← Rat.num_div_den a, ← Rat.num_div_den b]
  have ha : ((a.den : ℚ)) ≠ 0 := by exact_mod_cast a.den_nz
  have hb : ((b.den : ℚ)) ≠ 0 := by exact_mod_cast b.den_nz
  push_cast
  field_simp

theorem qSub_eq (a b : ℚ) : qSub a b = a - b := by
  rw [qSub, Rat.mkRat_eq_div]
  conv_rhs => rw [← Rat.num_div_den a, ← Rat.num_div_den b]
  have ha : ((a.den : ℚ)) ≠ 0 := by exact_mod_cast a.den_nz
  have hb : ((b.den : ℚ)) ≠ 0 := by exact_mod_cast b.den_nz
  push_cast
  field_simp
  ring

theorem qMul_eq (a b : ℚ) : qMul a b = a * b := by
  rw [qMul, Rat.mkRat_eq_div]
  conv_rhs => rw [← Rat.num_div_den a, ← Rat.num_div_den b]
  have ha : ((a.den : ℚ)) ≠ 0 := by exact_mod_cast a.den_nz
  have hb : ((b.den : ℚ)) ≠ 0 := by exact_mod_cast b.den_nz
  push_cast
  field_simp

theorem qDiv_eq (a b : ℚ) : qDiv a b = a / b := by
  rw [qDiv, Rat.divInt_eq_div]
  rcases eq_or_ne b 0 with hb | hb
  · subst hb; simp
  · conv_rhs => rw [← Rat.num_div_den a, ← Rat.num_div_den b]
    have ha : ((a.den : ℚ)) ≠ 0 := by exact_mod_cast a.den_nz
    have hbd : ((b.den : ℚ)) ≠ 0 := by exact_mod_cast b.den_nz
    have hbn : ((b.num : ℚ)) ≠ 0 := by exact_mod_cast Rat.num_ne_zero.mpr hb
    push_cast
    field_simp

theorem qOfNat_eq (n : ℕ) : qOfNat n = n := by
  rw [qOfNat, Rat.mkRat_eq_div]
  simp

/-! ### Character/string helpers shared by the embedded functions -/

/-- Characters removed by `re.sub(r'[\s\-_./()]+', '', ticker)` in
`CurrencyNormalizer.normalize`. -/
def isSeparatorChar (c : Char) : Bool :=
  c.isWhitespace || c = '-' || c = '_' || c = '.' || c = '/' || c = '(' || c = ')'

/-- Characters kept by `re.sub(r'[^\d.\-]', '', cleaned)` in
`RateNormalizer._parse_amount`. -/
def keepAmountChar (c : Char) : Bool :=
  c.isDigit || c = '.' || c = '-'

/-- Python `s.rstrip(c)` for a single character: drop every trailing `c`. -/
def dropTrailing (cs : List Char) (c : Char) : List Char :=
  (cs.reverse.dropWhile (· = c)).reverse

/-- Decimal digit character for `n < 10`. -/
def digitChar (n : ℕ) : Char := Char.ofNat (48 + n)

/-- Decimal digit list of a natural number (most significant first), with
explicit fuel so that it evaluates by kernel reduction. `fuel = n + 1`
always suffices since the argument is divided by ten each step. -/
def natDigitsAux : ℕ → ℕ → List Char
  | 0, _ => []
  | fuel + 1, n =>
    if n < 10 then [digitChar n]
    else natDigitsAux fuel (n / 10) ++ [digitChar (n % 10)]

/-- Decimal digit list of a natural number, e.g. `natDigits 850 = ['8','5','0']`. -/
def natDigits (n : ℕ) : List Char := natDigitsAux (n + 1) n

/-- Left-pad a digit list with `'0'` to length `d` (fractional part of a
fixed-point format). -/
def padLeftZeros (cs : List Char) (d : ℕ) : List Char :=
  List.replicate (d - cs.length) '0' ++ cs

/-! ### `RateNormalizer._parse_amount` (src/normalizer.py lines 362-378) -/

/-- Cleaning pipeline of `_parse_amount`: `strip()`, comma→dot, remove spaces,
then keep only `[\d.\-]`.  Stripping and space removal are subsumed by the
final filter, which removes every character outside `[\d.\-]` anywhere in the
string; the comma replacement must happen first, exactly as in the source. -/
def cleanAmount (s : String) : List Char :=
  (s.toList.map (fun c => if c = ',' then '.' else c)).filter keepAmountChar

/-- Numeric value of a digit list, most significant digit first. -/
def digitsVal (cs : List Char) : ℕ :=
  cs.foldl (fun a c => 10 * a + (c.toNat - 48)) 0

/-- Python `float()` applied to an unsigned string over the alphabet
`[0-9.]`: digits with at most one dot and at least one digit. -/
def parseUnsignedDecimal (cs : List Char) : Option ℚ :=
  if cs.all (fun c => c.isDigit || c = '.') && cs.any Char.isDigit then
    match cs.splitOn '.' with
    | [intPart] => some (qOfNat (digitsVal intPart))
    | [intPart, fracPart] =>
        some (qAdd (qOfNat (digitsVal intPart))
          (qDiv (qOfNat (digitsVal fracPart)) (qOfNat (10 ^ fracPart.length))))
    | _ => none
  else none

/-- Python `float()` on a cleaned amount string (alphabet `[0-9.\-]` after
the regex): an optional leading minus sign, then an unsigned decimal.
Exponents, `inf` and `nan` spellings cannot occur because every letter was
removed by the cleaning regex. -/
def pyFloatOfChars : List Char → Option ℚ
  | '-' :: rest => (parseUnsignedDecimal rest).map Neg.neg
  | cs => parseUnsignedDecimal cs

/-- `RateNormalizer._parse_amount`: `None` in, `None` out; clean the string;
return `None` for `''` or `'-'` or anything `float()` rejects. -/
def parseAmount : Option String → Option ℚ
  | none => none
  | some v =>
    let cleaned := cleanAmount v
    if cleaned.isEmpty || cleaned = ['-'] then none
    else pyFloatOfChars cleaned

/-! ### `RateNormalizer._format_amount` (src/normalizer.py lines 380-402) -/

/-- Round half to even, the rounding used by CPython's fixed-point `format`. -/
def roundHalfEven (q : ℚ) : ℤ :=
  let f := ⌊q⌋
  let frac := qSub q (mkRat f 1)
  if frac < mkRat 1 2 then f
  else if mkRat 1 2 < frac then f + 1
  else if f % 2 = 0 then f else f + 1

/-- Python `f"{v:.df}"` over the rational model: round half to even at `d`
decimal places, then print sign, integer part, dot, and a `d`-digit
zero-padded fractional part. -/
def fixedFormat (q : ℚ) (d : ℕ) : List Char :=
  let n := roundHalfEven (qMul q (qOfNat (10 ^ d)))
  let a := n.natAbs
  (if n < 0 then ['-'] else []) ++
    natDigits (a / 10 ^ d) ++ ['.'] ++ padLeftZeros (natDigits (a % 10 ^ d)) d

/-- Number of decimal places chosen by `_format_amount` for a nonzero value,
mirroring the source's nested `if value >= 1 / >= 1000` branches (the inner
`else` branch of the source is unreachable and maps to the same `8`). -/
def formatDecimals (q : ℚ) : ℕ :=
  if 1 ≤ q then (if 1000 ≤ q then 2 else if 1 ≤ q then 6 else 8) else 8

/-- `RateNormalizer._format_amount`: `0` prints as `"0"`; otherwise fixed
format at `formatDecimals` places, then `rstrip('0').rstrip('.')` when a dot
is present. -/
def formatAmount (q : ℚ) : String :=
  if q = 0 then "0"
  else
    let formatted := fixedFormat q (formatDecimals q)
    if formatted.contains '.' then ⟨dropTrailing (dropTrailing formatted '0') '.'⟩
    else ⟨formatted⟩

/-! ### `CurrencyNormalizer` (src/normalizer.py lines 33-249) -/

/-- The `CURRENCY_ALIASES` table (src/normalizer.py lines 33-180).  Keys are
unique, so first-match list lookup coincides with Python dict lookup. -/
def CURRENCY_ALIASES : List (String × String) := [
  ("USDT", "USDT"), ("TETHER", "USDT"),
  ("USDTTRC", "USDTTRC20"), ("USDTTRC20", "USDTTRC20"), ("USDT-TRC20", "USDTTRC20"),
  ("USDT_TRC20", "USDTTRC20"), ("USDT(TRC20)", "USDTTRC20"),
  ("USDTERC", "USDTERC20"), ("USDTERC20", "USDTERC20"), ("USDT-ERC20", "USDTERC20"),
  ("USDT_ERC20", "USDTERC20"), ("USDT(ERC20)", "USDTERC20"),
  ("USDTBEP20", "USDTBEP20"), ("USDT-BEP20", "USDTBEP20"), ("USDT_BEP20", "USDTBEP20"),
  ("USDT(BEP20)", "USDTBEP20"),
  ("USDTSOL", "USDTSOL"), ("USDT-SOL", "USDTSOL"),
  ("SBER", "SBERRUB"), ("SBERBANK", "SBERRUB"), ("SBERRUB", "SBERRUB"),
  ("SBER-RUB", "SBERRUB"), ("SBER_RUB", "SBERRUB"),
  ("TINK", "TCSBRUB"), ("TINKOFF", "TCSBRUB"), ("TCSB", "TCSBRUB"),
  ("TCSBRUB", "TCSBRUB"), ("TINKOFF-RUB", "TCSBRUB"),
  ("ALFA", "ACRUB"), ("ALFABANK", "ACRUB"), ("ACRUB", "ACRUB"), ("ALFA-RUB", "ACRUB"),
  ("VTB", "VTBRUB"), ("VTBRUB", "VTBRUB"), ("VTB-RUB", "VTBRUB"),
  ("RAIFF", "RFBRUB"), ("RAIFFEISEN", "RFBRUB"), ("RFBRUB", "RFBRUB"),
  ("GAZPROM", "GPBRUB"), ("GPBRUB", "GPBRUB"),
  ("ROSBANK", "ROSBANKRUB"), ("ROSBANKRUB", "ROSBANKRUB"),
  ("OTKRITIE", "OPNBNKRUB"), ("OPNBNKRUB", "OPNBNKRUB"),
  ("MKB", "MKBRUB"), ("MKBRUB", "MKBRUB"),
  ("POST", "POSTRUB"), ("POSTBANK", "POSTRUB"), ("POSTRUB", "POSTRUB"),
  ("QIWI", "QWRUB"), ("QWRUB", "QWRUB"), ("QIWI-RUB", "QWRUB"),
  ("YOOMONEY", "YAMRUB"), ("YAMRUB", "YAMRUB"), ("YANDEX", "YAMRUB"),
  ("PRIVAT", "PUAH"), ("PRIVATBANK", "PUAH"), ("PUAH", "PUAH"), ("PRIVAT24", "PUAH"),
  ("MONO", "MONOBUAH"), ("MONOBANK", "MONOBUAH"), ("MONOBUAH", "MONOBUAH"),
  ("BTC", "BTC"), ("BITCOIN", "BTC"), ("ETH", "ETH"), ("ETHEREUM", "ETH"),
  ("LTC", "LTC"), ("LITECOIN", "LTC"), ("XRP", "XRP"), ("RIPPLE", "XRP"),
  ("DOGE", "DOGE"), ("DOGECOIN", "DOGE"), ("TRX", "TRX"), ("TRON", "TRX"),
  ("SOL", "SOL"), ("SOLANA", "SOL"), ("BNB", "BNB"), ("BINANCECOIN", "BNB"),
  ("MATIC", "MATIC"), ("POLYGON", "MATIC"), ("TON", "TON"), ("TONCOIN", "TON"),
  ("NOT", "NOT"), ("NOTCOIN", "NOT"),
  ("USDC", "USDC"), ("USDCOIN", "USDC"), ("BUSD", "BUSD"), ("DAI", "DAI"),
  ("TUSD", "TUSD"), ("USDP", "USDP"),
  ("RUB", "RUB"), ("RUR", "RUB"), ("USD", "USD"), ("EUR", "EUR"), ("UAH", "UAH"),
  ("KZT", "KZT"), ("GEL", "GEL"), ("TRY", "TRY"), ("AZN", "AZN"), ("BYN", "BYN"),
  ("AMD", "AMD"), ("UZS", "UZS"),
  ("PAYPAL", "PPUSD"), ("PPUSD", "PPUSD"), ("PAYEER", "PRUSD"), ("PRUSD", "PRUSD"),
  ("PRRUB", "PRRUB"), ("ADVCASH", "ADVCUSD"), ("ADVCUSD", "ADVCUSD"),
  ("ADVCRUB", "ADVCRUB"), ("PERFECT", "PMUSD"), ("PERFECTMONEY", "PMUSD"),
  ("PMUSD", "PMUSD"), ("PMEUR", "PMEUR"), ("SKRILL", "SKRUSD"), ("SKRUSD", "SKRUSD"),
  ("NETELLER", "NTUSD"), ("NTUSD", "NTUSD"), ("WEBMONEY", "WMZ"), ("WMZ", "WMZ"),
  ("WMR", "WMR"), ("WISE", "WISEUSD"), ("WISEUSD", "WISEUSD"), ("WISEEUR", "WISEEUR"),
  ("REVOLUT", "RVLTUSD"), ("RVLTUSD", "RVLTUSD"),
  ("CASHRUB", "CASHRUB"), ("CASHUSD", "CASHUSD"), ("CASHEUR", "CASHEUR"),
  ("CASH-RUB", "CASHRUB"), ("CASH-USD", "CASHUSD")]

/-- `NETWORK_SUFFIXES` (src/normalizer.py lines 183-186). -/
def NETWORK_SUFFIXES : List String := [
  "TRC20", "ERC20", "BEP20", "SOL", "POLYGON", "ARBITRUM", "OPTIMISM",
  "AVAX", "FTM", "MATIC", "BSC", "BASE", "TON", "TRON"]

/-- The inline fiat-suffix list of `CurrencyNormalizer.normalize`
(src/normalizer.py line 237). -/
def FIAT_SUFFIXES : List String := ["RUB", "USD", "EUR", "UAH", "KZT"]

/-- Cleaning pipeline of `CurrencyNormalizer.normalize`: `strip()`,
`upper()`, then `re.sub(r'[\s\-_./()]+', '', ·)` (with empty replacement the
regex is a character filter).  The initial `strip()` is subsumed by the
filter, which removes every whitespace character anywhere in the string.
`Char.toUpper` matches Python `upper()` on the ASCII tickers handled by the
program. -/
def cleanTicker (s : String) : String :=
  ⟨(s.toList.map Char.toUpper).filter (fun c => !isSeparatorChar c)⟩

/-- Python `s.endswith(suffix)`. -/
def pyEndsWith (s suffix : String) : Bool :=
  suffix.toList.isSuffixOf s.toList

/-- Python `s[:-n]` for `0 < n ≤ len s`: drop the last `n` characters. -/
def strDropRight (s : String) (n : ℕ) : String :=
  ⟨s.toList.take (s.toList.length - n)⟩

/-- Python `ticker.replace(sep, '')` for the separators tried by the
"common variations" loop: each is a single character, so the replacement
removes every occurrence; replacing the empty string by the empty string is
the identity. -/
def removeSep (s : String) (sep : String) : String :=
  match sep.toList with
  | [c] => ⟨s.toList.filter (fun x => x ≠ c)⟩
  | _ => s

/-- One step of the fiat-combination loop (src/normalizer.py lines 237-242):
a fiat suffix yields a result only when the recombined ticker is an alias. -/
def fiatAliasLookup (aliases : List (String × String)) (t fiat : String) :
    Option String :=
  if pyEndsWith t fiat && decide (fiat.length < t.length) then
    aliases.lookup (strDropRight t fiat.length ++ fiat)
  else none

/-- `CurrencyNormalizer.normalize` (src/normalizer.py lines 197-245):
empty input short-circuits; then clean, direct alias lookup, the
"common variations" loop over separators `['', '-', '_']`, the network-suffix
loop (first match returns the alias if known, else the recombined form), the
fiat-suffix loop, and finally the cleaned ticker unchanged. -/
def currencyNormalize (aliases : List (String × String)) (ticker : String) :
    String :=
  if ticker = "" then ""
  else
    let t := cleanTicker ticker
    match aliases.lookup t with
    | some v => v
    | none =>
      match (["", "-", "_"].map fun sep => removeSep t sep).findSome?
          aliases.lookup with
      | some v => v
      | none =>
        match NETWORK_SUFFIXES.find? (fun n => pyEndsWith t n) with
        | some n =>
          let combined := strDropRight t n.length ++ n
          (aliases.lookup combined).getD combined
        | none =>
          match FIAT_SUFFIXES.findSome? (fun f => fiatAliasLookup aliases t f) with
          | some v => v
          | none => t

/-! ### Data model (src/fetcher.py lines 22-47, src/normalizer.py lines 17-29,
src/config.py lines 25-32) -/

/-- `RawRate` (src/fetcher.py).  `fetched_at` is an abstract timestamp. -/
structure RawRate where
  exchanger_id : String
  exchanger_name : String
  from_currency : String
  to_currency : String
  in_amount : String
  out_amount : String
  reserve : Option String := none
  min_amount : Option String := none
  max_amount : Option String := none
  param : Option String := none
  fetched_at : ℕ := 0
  source_url : Option String := none
  deriving DecidableEq, Repr

/-- `NormalizedRate` (src/normalizer.py). -/
structure NormalizedRate where
  from_currency : String
  to_currency : String
  in_amount : String
  out_amount : String
  amount : String
  min_amount : String
  max_amount : String
  param : String
  exchanger_id : Option String := none
  exchanger_name : Option String := none
  deriving DecidableEq, Repr

/-- `DefaultFieldsConfig` (src/config.py). -/
structure DefaultFieldsConfig where
  amount : String := "0"
  min_amount : String := "0"
  max_amount : String := "999999999"
  param : String := "0"
  in_amount : String := "1"
  deriving DecidableEq, Repr

/-- Model of CPython `str()` applied to a float.  For a value that is an
integer of magnitude below `10^16` — the only values the theorems below
evaluate it at — `str()` prints the integer digits followed by `".0"`
(e.g. `str(100.0) = "100.0"`).  Integers of magnitude `≥ 10^16` print in
scientific notation (e.g. `str(1e22) = "1e+22"`), modelled here with the
full digit list as mantissa; non-integral values use CPython's shortest
round-tripping representation, approximated by a 17-place fixed format with
trailing zeros stripped. -/
def pyFloatStr (q : ℚ) : String :=
  if q.den = 1 then
    if q.num.natAbs < 10 ^ 16 then
      ⟨(if q.num < 0 then ['-'] else []) ++ natDigits q.num.natAbs ++ ['.', '0']⟩
    else
      let ds := natDigits q.num.natAbs
      let mantissa := ds.take 1 ++
        (if (dropTrailing (ds.drop 1) '0').isEmpty then []
         else '.' :: dropTrailing (ds.drop 1) '0')
      ⟨(if q.num < 0 then ['-'] else []) ++ mantissa⟩ ++ "e+" ++
        ⟨natDigits (ds.length - 1)⟩
  else
    let cs := dropTrailing (fixedFormat q 17) '0'
    if cs.getLast? = some '.' then ⟨cs ++ ['0']⟩ else ⟨cs⟩

/-! ### `RateNormalizer.normalize_rate` (src/normalizer.py lines 260-327)

`Except.error` marks the `TypeError` raised when `_parse_amount` returns
`None` and that `None` flows into the `<= 0` comparison; `Except.ok none`
models `return None`. -/

def normalizeRate (defaults : DefaultFieldsConfig) (raw : RawRate) :
    Except String (Option NormalizedRate) :=
  let from_curr := currencyNormalize CURRENCY_ALIASES raw.from_currency
  let to_curr := currencyNormalize CURRENCY_ALIASES raw.to_currency
  if from_curr = "" || to_curr = "" then .ok none
  else if from_curr = to_curr then .ok none
  else
    match parseAmount (some raw.in_amount) with
    | none => .error "TypeError: comparison of NoneType in in_amount <= 0"
    | some in0 =>
      let in1 : ℚ := if in0 ≤ 0 then 1 else in0
      match parseAmount (some raw.out_amount) with
      | none => .error "TypeError: comparison of NoneType in out_amount <= 0"
      | some out0 =>
        if out0 ≤ 0 then .ok none
        else
          let out1 : ℚ := if in1 ≠ 1 then qDiv out0 in1 else out0
          let in2 : ℚ := if in1 ≠ 1 then 1 else in1
          let amount := match parseAmount raw.reserve with
            | some r => pyFloatStr r
            | none => defaults.amount
          let min_amount := match raw.min_amount with
            | none => defaults.min_amount
            | some m =>
              match parseAmount (some m) with
              | some pm => pyFloatStr pm
              | none => defaults.min_amount
          let max_amount := match raw.max_amount with
            | none => defaults.max_amount
            | some m =>
              match parseAmount (some m) with
              | some pm => pyFloatStr pm
              | none => defaults.max_amount
          let param := match raw.param with
            | none => defaults.param
            | some p => if p = "" then defaults.param else p
          .ok (some {
            from_currency := from_curr
            to_currency := to_curr
            in_amount := formatAmount in2
            out_amount := formatAmount out1
            amount := amount
            min_amount := min_amount
            max_amount := max_amount
            param := param
            exchanger_id := some raw.exchanger_id
            exchanger_name := some raw.exchanger_name })

/-! ### `RateNormalizer.normalize_rates` (src/normalizer.py lines 329-360) -/

/-- Deduplication key `(from_currency, to_currency, exchanger_id or '')`. -/
def rateKey (r : NormalizedRate) : String × String × String :=
  (r.from_currency, r.to_currency, r.exchanger_id.getD "")

/-- The loop of `normalize_rates`, with the `seen` set made explicit as the
list of keys added so far (only membership is used, so a list models the
Python set).  A raised exception (`Except.error`) is caught by the
`except` clause and the record skipped; `None` results are skipped; when
`deduplicate` is set, a record whose key is already in `seen` is skipped. -/
def normalizeRatesAux (defaults : DefaultFieldsConfig) (dedupe : Bool) :
    List RawRate → List (String × String × String) → List NormalizedRate
  | [], _ => []
  | raw :: rest, seen =>
    match normalizeRate defaults raw with
    | .error _ => normalizeRatesAux defaults dedupe rest seen
    | .ok none => normalizeRatesAux defaults dedupe rest seen
    | .ok (some r) =>
      if dedupe then
        if rateKey r ∈ seen then normalizeRatesAux defaults dedupe rest seen
        else r :: normalizeRatesAux defaults dedupe rest (rateKey r :: seen)
      else r :: normalizeRatesAux defaults dedupe rest seen

/-- `RateNormalizer.normalize_rates`: iterate in input order starting from an
empty `seen` set; the batch call never raises because every per-record
exception is caught. -/
def normalizeRates (defaults : DefaultFieldsConfig) (raws : List RawRate)
    (dedupe : Bool) : List NormalizedRate :=
  normalizeRatesAux defaults dedupe raws []

/-- Specification-side dedup: keep the first record per key, in order.
Written from the spec sentence "keeps only the first CanonicalRate per
`(from, to, sourceId)` key seen in this call and skips subsequent
duplicates", for comparison with the code-side `normalizeRates`. -/
def keepFirstByKey :
    List NormalizedRate → List (String × String × String) → List NormalizedRate
  | [], _ => []
  | r :: rest, seen =>
    if rateKey r ∈ seen then keepFirstByKey rest seen
    else r :: keepFirstByKey rest (rateKey r :: seen)

/-! ### `XMLExporter.write_xml` (src/exporter_xml.py lines 148-223)

The XML rendering and well-formedness checking delegate to Python's
`xml.etree`/`minidom` libraries; they are abstracted as parameters: the
rendered string `xmlString`, a flag `generateFails` (an exception escaping
`generate_xml`), and the validation verdict `validationPasses` (the
combined well-formedness and XSD checks).  The file system visible to the
call is the target path's content and the temp file's content; `os.replace`
is atomic (it either fully succeeds or raises leaving the target as it
was).  Fallible OS steps are driven by failure-injection flags.  The
post-rename bookkeeping (`record_export` metrics) only ever raises
`RuntimeError`, which the source catches, so it is not a failure point. -/

/-- The exporter's mutable state: `_last_valid_xml` and `_last_export_time`. -/
structure ExporterState where
  lastValidXml : Option String := none
  lastExportTime : Option ℕ := none
  deriving DecidableEq, Repr

/-- Contents of the output directory relevant to one `write_xml` call. -/
structure ExportFS where
  target : Option String := none
  temp : Option String := none
  deriving DecidableEq, Repr

/-- Failure injection for the fallible steps of `write_xml`. -/
structure WriteFailures where
  generateFails : Bool := false
  makedirsFails : Bool := false
  mkstempFails : Bool := false
  writeFails : Bool := false
  replaceFails : Bool := false
  deriving DecidableEq, Repr

/-- Result of one `write_xml` call: the returned boolean, the exporter state
and the file system afterwards. -/
structure WriteOutcome where
  result : Bool
  st : ExporterState
  fs : ExportFS
  deriving DecidableEq, Repr

/-- `XMLExporter.write_xml`.  Control flow of the source:
generation failure or a failed validation returns `False` before anything
is touched; the rendered string is stored as `_last_valid_xml` (line 180)
*before* the write; `makedirs`/`mkstemp` failures are caught by the outer
`except` with no temp file yet; a failure of the temp-file write or of
`os.replace` triggers the inner cleanup (`os.unlink` of the temp file)
and then returns `False`; on success the temp file has been renamed over
the target and `_last_export_time` is set. -/
def writeXml (xmlString : String) (validationPasses validateEnabled : Bool)
    (now : ℕ) (f : WriteFailures) (st : ExporterState) (fs : ExportFS) :
    WriteOutcome :=
  if f.generateFails then ⟨false, st, fs⟩
  else if validateEnabled && !validationPasses then ⟨false, st, fs⟩
  else
    let st := { st with lastValidXml := some xmlString }
    if f.makedirsFails then ⟨false, st, fs⟩
    else if f.mkstempFails then ⟨false, st, fs⟩
    else
      let fs := { fs with temp := some "" }
      if f.writeFails then ⟨false, st, { fs with temp := none }⟩
      else
        let fs := { fs with temp := some xmlString }
        if f.replaceFails then ⟨false, st, { fs with temp := none }⟩
        else ⟨true, { st with lastExportTime := some now },
              { target := some xmlString, temp := none }⟩

/-- `XMLExporter.get_last_valid_xml` (src/exporter_xml.py lines 242-248). -/
def getLastValidXml (st : ExporterState) : Option String :=
  st.lastValidXml

/-! ### `ExnodeFetcher.fetch_all_exchangers` (src/fetcher.py lines 421-458) -/

/-- `ExchangerConfig` (src/config.py lines 16-23). -/
structure ExchangerConfig where
  id : String
  name : String
  url : Option String := none
  enabled : Bool := true
  deriving DecidableEq, Repr

/-- `FetchResult` (src/fetcher.py lines 39-47), without the timestamp. -/
structure FetchResult where
  exchanger_id : String
  success : Bool
  rates : List RawRate := []
  error : Option String := none
  source_url : Option String := none
  deriving DecidableEq, Repr

/-- `ExnodeFetcher.fetch_all_exchangers`.  One task per *enabled* exchanger,
in configuration order; `asyncio.gather(..., return_exceptions=True)` is
modelled by `run`, which yields either the task's `FetchResult` or the
exception that escaped it.  The recovery loop mirrors the source exactly:
it enumerates the gathered results and, for an exception at index `i`,
attributes the failure to `self.config.exchangers[i]` — an index into the
*unfiltered* configuration list. -/
def fetchAllExchangers (exchangers : List ExchangerConfig)
    (run : ExchangerConfig → Except String FetchResult) : List FetchResult :=
  let results := (exchangers.filter (fun e => e.enabled)).map run
  results.mapIdx fun i r =>
    match r with
    | .ok fr => fr
    | .error e =>
      let exchanger := (exchangers.get? i).getD
        { id := "", name := "", url := none, enabled := true }
      { exchanger_id := exchanger.id, success := false, rates := [],
        error := some e }

/-- `ExnodeFetcher.get_all_cached_rates` (src/fetcher.py lines 460-465):
concatenation of the per-exchanger cached lists, in cache iteration order. -/
def getAllCachedRates (cache : List (String × List RawRate)) : List RawRate :=
  cache.foldl (fun acc kv => acc ++ kv.2) []

/-! ### `RateExporterService.run_once` (src/service.py lines 82-138)

The fetch results, the cache union, the previously cached normalized rates
and the exporter verdict are parameters; the outcome records which
collaborators were invoked, so that "the exporter was not called" (and
hence no write to the output path happened) is directly statable. -/

/-- Outcome of one `run_once` cycle. -/
structure CycleOutcome where
  success : Bool
  normalizerCalled : Bool
  exporterCalled : Bool
  normalizerInput : List RawRate := []
  exportedRates : List NormalizedRate := []
  deriving DecidableEq, Repr

/-- The tail of `run_once` once a non-empty raw-rate list has been chosen:
normalize with deduplication; if nothing valid remains, fall back to
`self._last_rates` or fail; otherwise export. -/
def runOnceMain (defaults : DefaultFieldsConfig)
    (lastRates : List NormalizedRate) (exportOk : Bool)
    (raws : List RawRate) : CycleOutcome :=
  let normalized := normalizeRates defaults raws true
  if normalized.isEmpty then
    if lastRates.isEmpty then
      { success := false, normalizerCalled := true, exporterCalled := false,
        normalizerInput := raws }
    else
      { success := exportOk, normalizerCalled := true, exporterCalled := true,
        normalizerInput := raws, exportedRates := lastRates }
  else
    { success := exportOk, normalizerCalled := true, exporterCalled := true,
      normalizerInput := raws, exportedRates := normalized }

/-- `RateExporterService.run_once`: flatten all `FetchResult.rates` (the
source appends only non-empty lists, which concatenation subsumes); if the
flattened list is empty fall back to the cache union; if that is also empty
return `False` without normalizing or exporting. -/
def runOnce (fetchResults : List FetchResult) (cached : List RawRate)
    (defaults : DefaultFieldsConfig) (lastRates : List NormalizedRate)
    (exportOk : Bool) : CycleOutcome :=
  let allRawRates := fetchResults.foldl (fun acc r => acc ++ r.rates) []
  if allRawRates.isEmpty then
    if cached.isEmpty then
      { success := false, normalizerCalled := false, exporterCalled := false }
    else runOnceMain defaults lastRates exportOk cached
  else runOnceMain defaults lastRates exportOk allRawRates

/-! ### `async_retry` / `calculate_backoff_delay` (src/utils.py lines 40-119)

One attempt's outcome is `ok` or an exception; `retryable` tells whether the
exception is matched by `retryable_exceptions` (an unmatched exception
propagates immediately).  The `random.random()` draws are an oracle
`rand : ℕ → ℚ`, indexed by attempt number. -/

/-- Outcome of one underlying call of the retried operation. -/
inductive Attempt (E A : Type) where
  | ok (a : A)
  | err (e : E)
  deriving DecidableEq, Repr

/-- `calculate_backoff_delay(attempt, base_delay, max_delay, jitter=True)`:
`min(base_delay * 2^attempt, max_delay)` scaled by `0.75 + random() * 0.5`. -/
def calculateBackoffDelay (attempt : ℕ) (baseDelay maxDelay : ℚ)
    (jitter : Bool) (rand : ℚ) : ℚ :=
  let delay := min (baseDelay * 2 ^ attempt) maxDelay
  if jitter then delay * (3 / 4 + rand * (1 / 2)) else delay

/-- Trace of one `async_retry` call: the final result (`Except.error` models
the re-raised exception), how many times the operation ran, and the sleeps
performed between attempts in order. -/
structure RetryRun (E A : Type) where
  result : Except E A
  attemptsMade : ℕ
  delays : List ℚ
  deriving Repr

/-- The `for attempt in range(max_retries + 1)` loop of `async_retry`,
recursing on the number of retries still allowed (`remaining =
max_retries - attempt`).  A success returns immediately; a non-retryable
exception propagates immediately; a retryable exception on the final
attempt (`attempt >= max_retries`) is re-raised by the bare `raise`;
otherwise the loop sleeps `calculate_backoff_delay(attempt, ...)` and
retries. -/
def asyncRetryAux (op : ℕ → Attempt E A) (retryable : E → Bool)
    (baseDelay maxDelay : ℚ) (rand : ℕ → ℚ) :
    (attempt : ℕ) → (remaining : ℕ) → RetryRun E A
  | attempt, 0 =>
    match op attempt with
    | .ok a => ⟨.ok a, 1, []⟩
    | .err e => ⟨.error e, 1, []⟩
  | attempt, remaining + 1 =>
    match op attempt with
    | .ok a => ⟨.ok a, 1, []⟩
    | .err e =>
      if retryable e then
        let d := calculateBackoffDelay attempt baseDelay maxDelay true
          (rand attempt)
        let rest := asyncRetryAux op retryable baseDelay maxDelay rand
          (attempt + 1) remaining
        ⟨rest.result, rest.attemptsMade + 1, d :: rest.delays⟩
      else ⟨.error e, 1, []⟩

/-- `async_retry(func, max_retries, base_delay, max_delay, ...)`. -/
def asyncRetry (op : ℕ → Attempt E A) (retryable : E → Bool)
    (maxRetries : ℕ) (baseDelay maxDelay : ℚ) (rand : ℕ → ℚ) : RetryRun E A :=
  asyncRetryAux op retryable baseDelay maxDelay rand 0 maxRetries

deriving instance DecidableEq for Except

/-! ## Theorems -/

/-- Claim C1: for every rendered snapshot and target state, if
`XMLExporter.write_xml` fails at any step (in particular the temp-file write
or the rename), it returns `False`, the temporary file is deleted, and the
content of the target path is byte-identical to its state before the call
(old valid content, or absent if the file did not exist). -/
theorem writeXml_failure_leaves_target_untouched
    (xml : String) (vp ve : Bool) (now : ℕ) (f : WriteFailures)
    (st : ExporterState) (fs : ExportFS)
    (htemp : fs.temp = none)
    (hfail : (writeXml xml vp ve now f st fs).result = false) :
    (writeXml xml vp ve now f st fs).fs.target = fs.target ∧
    (writeXml xml vp ve now f st fs).fs.temp = none := by
  obtain ⟨g, mk, ms, w, rp⟩ := f
  cases g <;> cases mk <;> cases ms <;> cases w <;> cases rp <;>
    cases vp <;> cases ve <;>
    simp_all [writeXml]

/-- Witness for C1: a concrete failed rename leaves a pre-existing target
file intact and no temp file behind. -/
theorem writeXml_failure_leaves_target_untouched_witness :
    (writeXml "new" true true 7 { replaceFails := true }
        { lastValidXml := some "old" } { target := some "old" }).fs.target =
      some "old" ∧
    (writeXml "new" true true 7 { replaceFails := true }
        { lastValidXml := some "old" } { target := some "old" }).fs.temp =
      none := by
  have h := writeXml_failure_leaves_target_untouched "new" true true 7
    { replaceFails := true } { lastValidXml := some "old" }
    { target := some "old" } (by decide) (by decide)
  exact ⟨h.1.trans (by decide), h.2⟩

/-- Claim C2 is false on the code: `write_xml` stores the rendered string as
`_last_valid_xml` (src/exporter_xml.py line 180) *before* the atomic write,
so a call that fails during the write (here: the rename) returns `False`
yet changes what `get_last_valid_xml` returns from `some "old"` to
`some "new"`. -/
theorem writeXml_false_but_snapshot_updated :
    (writeXml "new" true true 7 { replaceFails := true }
        { lastValidXml := some "old" } { target := some "old" }).result =
      false ∧
    getLastValidXml (writeXml "new" true true 7 { replaceFails := true }
        { lastValidXml := some "old" } { target := some "old" }).st =
      some "new" ∧
    getLastValidXml (writeXml "new" true true 7 { replaceFails := true }
        { lastValidXml := some "old" } { target := some "old" }).st ≠
      getLastValidXml { lastValidXml := some "old" } := by
  refine ⟨by decide, by decide, by decide⟩

/-- Claim C2, amended: the stored snapshot is updated as soon as the XML has
been generated and has passed validation, *before* the write; a `write_xml`
call that returns `False` leaves `get_last_valid_xml` unchanged only when it
failed during generation or validation, while a failure of any later step
leaves the freshly rendered string stored; `_last_export_time` is updated
only on success. -/
theorem writeXml_snapshot_update_policy
    (xml : String) (vp ve : Bool) (now : ℕ) (f : WriteFailures)
    (st : ExporterState) (fs : ExportFS)
    (hfail : (writeXml xml vp ve now f st fs).result = false) :
    ((f.generateFails = true ∨ (ve = true ∧ vp = false)) →
      getLastValidXml (writeXml xml vp ve now f st fs).st =
        getLastValidXml st) ∧
    (f.generateFails = false → (ve = true → vp = true) →
      getLastValidXml (writeXml xml vp ve now f st fs).st = some xml) ∧
    (writeXml xml vp ve now f st fs).st.lastExportTime =
      st.lastExportTime := by
  obtain ⟨g, mk, ms, w, rp⟩ := f
  cases g <;> cases mk <;> cases ms <;> cases w <;> cases rp <;>
    cases vp <;> cases ve <;>
    simp_all [writeXml, getLastValidXml]

/-- Witness for the amended C2: a failed rename after passed validation
returns `False` with the fresh string stored and the export time unchanged. -/
theorem writeXml_snapshot_update_policy_witness :
    getLastValidXml (writeXml "new" true true 7 { replaceFails := true }
        { lastValidXml := some "old" } { target := some "old" }).st =
      some "new" ∧
    (writeXml "new" true true 7 { replaceFails := true }
        { lastValidXml := some "old" } { target := some "old" }).st.lastExportTime =
      none := by
  have h := writeXml_snapshot_update_policy "new" true true 7
    { replaceFails := true } { lastValidXml := some "old" }
    { target := some "old" } (by decide)
  exact ⟨h.2.1 rfl (fun _ => rfl), h.2.2⟩

/-- Claim C8 exposes a code bug: `fetch_all_exchangers` builds one task per
*enabled* exchanger but, when converting an escaped exception at result
index `i` into a `FetchResult`, reads `self.config.exchangers[i]` — the
*unfiltered* configuration list.  With a disabled exchanger `"a"` followed
by an enabled exchanger `"b"` whose task raises, the error is attributed to
`"a"`, not to the source whose task raised it.  (The other parts of the
claim hold: one result per enabled source, in order, and the sibling tasks
are not aborted — the exception becomes a `success := false` result.) -/
theorem fetchAllExchangers_misattributes_exception :
    fetchAllExchangers
        [{ id := "a", name := "A", enabled := false },
         { id := "b", name := "B" }]
        (fun e =>
          if e.id = "b" then .error "boom"
          else .ok { exchanger_id := e.id, success := true }) =
      [{ exchanger_id := "a", success := false, error := some "boom" }] ∧
    (fetchAllExchangers
        [{ id := "a", name := "A", enabled := false },
         { id := "b", name := "B" }]
        (fun e =>
          if e.id = "b" then .error "boom"
          else .ok { exchanger_id := e.id, success := true })).map
      FetchResult.exchanger_id ≠ ["b"] := by
  refine ⟨by decide, by decide⟩

/-- Claim C9: in a cycle whose fetch results flatten to no rates, `run_once`
falls back to the union of the cached raw rates, and if that union is also
empty it returns failure without invoking the normalizer or the exporter
(so nothing is written and the previous snapshot stays authoritative). -/
theorem runOnce_empty_fetch_fallback
    (fetchResults : List FetchResult) (cache : List (String × List RawRate))
    (defaults : DefaultFieldsConfig) (lastRates : List NormalizedRate)
    (exportOk : Bool)
    (hflat : fetchResults.foldl (fun acc r => acc ++ r.rates) [] = []) :
    (getAllCachedRates cache = [] →
      runOnce fetchResults (getAllCachedRates cache) defaults lastRates
          exportOk =
        { success := false, normalizerCalled := false,
          exporterCalled := false }) ∧
    (getAllCachedRates cache ≠ [] →
      (runOnce fetchResults (getAllCachedRates cache) defaults lastRates
          exportOk).normalizerInput = getAllCachedRates cache) := by
  constructor
  · intro hc
    simp [runOnce, hflat, hc]
  · intro hc
    have hne : (getAllCachedRates cache).isEmpty = false := by
      simpa [List.isEmpty_iff] using hc
    simp only [runOnce, hflat, List.isEmpty_nil, if_true, hne,
      Bool.false_eq_true, if_false]
    unfold runOnceMain
    by_cases hn : (normalizeRates defaults (getAllCachedRates cache) true).isEmpty <;>
      by_cases hl : lastRates.isEmpty <;>
      simp [hn, hl]

/-- Witness for C9: one failed fetch result, both with an empty cache and
with a one-entry cache. -/
theorem runOnce_empty_fetch_fallback_witness :
    (runOnce [{ exchanger_id := "a", success := false }] (getAllCachedRates [])
        {} [] true =
      { success := false, normalizerCalled := false,
        exporterCalled := false }) ∧
    (runOnce [{ exchanger_id := "a", success := false }]
        (getAllCachedRates
          [("a", [{ exchanger_id := "a", exchanger_name := "A",
                    from_currency := "BTC", to_currency := "RUB",
                    in_amount := "1", out_amount := "92.5" }])])
        {} [] true).normalizerInput =
      getAllCachedRates
        [("a", [{ exchanger_id := "a", exchanger_name := "A",
                  from_currency := "BTC", to_currency := "RUB",
                  in_amount := "1", out_amount := "92.5" }])] := by
  constructor
  · exact (runOnce_empty_fetch_fallback [{ exchanger_id := "a", success := false }]
      [] {} [] true (by decide)).1 (by decide)
  · exact (runOnce_empty_fetch_fallback [{ exchanger_id := "a", success := false }]
      [("a", [{ exchanger_id := "a", exchanger_name := "A",
                from_currency := "BTC", to_currency := "RUB",
                in_amount := "1", out_amount := "92.5" }])] {} [] true
      (by decide)).2 (by decide)

/-- The retry loop performs at most `remaining + 1` calls. -/
theorem asyncRetryAux_attempts_le {E A : Type} (op : ℕ → Attempt E A)
    (retryable : E → Bool) (baseDelay maxDelay : ℚ) (rand : ℕ → ℚ) :
    ∀ remaining attempt,
      (asyncRetryAux op retryable baseDelay maxDelay rand attempt
          remaining).attemptsMade ≤ remaining + 1 := by
  intro remaining
  induction remaining with
  | zero =>
    intro attempt
    simp only [asyncRetryAux]
    cases op attempt <;> simp
  | succ n ih =>
    intro attempt
    simp only [asyncRetryAux]
    cases op attempt with
    | ok a => simp
    | err e =>
      by_cases hr : retryable e
      · simpa [hr] using Nat.succ_le_succ (ih (attempt + 1))
      · simp [hr]

/-- Each recorded sleep equals `calculate_backoff_delay` at the failing
attempt's index. -/
theorem asyncRetryAux_delays_eq {E A : Type} (op : ℕ → Attempt E A)
    (retryable : E → Bool) (baseDelay maxDelay : ℚ) (rand : ℕ → ℚ) :
    ∀ remaining attempt i d,
      (asyncRetryAux op retryable baseDelay maxDelay rand attempt
          remaining).delays.get? i = some d →
      d = calculateBackoffDelay (attempt + i) baseDelay maxDelay true
          (rand (attempt + i)) := by
  intro remaining
  induction remaining with
  | zero =>
    intro attempt i d h
    simp only [asyncRetryAux] at h
    cases hop : op attempt <;> rw [hop] at h <;> simp at h
  | succ n ih =>
    intro attempt i d h
    simp only [asyncRetryAux] at h
    cases hop : op attempt with
    | ok a => rw [hop] at h; simp at h
    | err e =>
      rw [hop] at h
      by_cases hr : retryable e
      · simp only [hr, if_true] at h
        match i with
        | 0 =>
          simp only [List.get?_cons_zero, Option.some.injEq] at h
          simpa using h.symm
        | j + 1 =>
          simp only [List.get?_cons_succ] at h
          have := ih (attempt + 1) j d h
          simpa [Nat.add_assoc, Nat.add_comm 1 j] using this
      · simp [hr] at h

/-- If every attempt up to index `attempt + remaining` fails with a
retryable exception, the loop re-raises the exception of the last attempt. -/
theorem asyncRetryAux_all_fail {E A : Type} (op : ℕ → Attempt E A)
    (retryable : E → Bool) (baseDelay maxDelay : ℚ) (rand : ℕ → ℚ) :
    ∀ remaining attempt,
      (∀ j, attempt ≤ j → j ≤ attempt + remaining →
        ∃ e, op j = .err e ∧ retryable e = true) →
      ∃ e, op (attempt + remaining) = .err e ∧
        (asyncRetryAux op retryable baseDelay maxDelay rand attempt
            remaining).result = .error e := by
  intro remaining
  induction remaining with
  | zero =>
    intro attempt h
    obtain ⟨e, he, -⟩ := h attempt le_rfl (by omega)
    exact ⟨e, by simpa using he, by simp [asyncRetryAux, he]⟩
  | succ n ih =>
    intro attempt h
    obtain ⟨e, he, hr⟩ := h attempt le_rfl (by omega)
    obtain ⟨e', he', hres⟩ := ih (attempt + 1)
      (fun j hj1 hj2 => h j (by omega) (by omega))
    refine ⟨e', by simpa [Nat.add_assoc, Nat.add_comm 1 n] using he', ?_⟩
    simp [asyncRetryAux, he, hr, hres]

/-- Claim C6: `async_retry` executes the operation at most
`max_retries + 1` times; the sleep before the `n`-th retry (the delay at
index `n` of the trace, preceding attempt `n + 1`) is
`min(base_delay * 2^n, max_delay)` multiplied by the jitter factor
`0.75 + random()/2`, which lies in `[0.75, 1.25]` whenever the random draw
lies in `[0, 1)`; and if every attempt fails with a retryable exception the
exception of the last attempt itself is re-raised. -/
theorem asyncRetry_spec {E A : Type} (op : ℕ → Attempt E A)
    (retryable : E → Bool) (maxRetries : ℕ) (baseDelay maxDelay : ℚ)
    (rand : ℕ → ℚ) (hrand : ∀ i, 0 ≤ rand i ∧ rand i < 1) :
    (asyncRetry op retryable maxRetries baseDelay maxDelay
        rand).attemptsMade ≤ maxRetries + 1 ∧
    (∀ i (h : i < (asyncRetry op retryable maxRetries baseDelay maxDelay
        rand).delays.length),
      (asyncRetry op retryable maxRetries baseDelay maxDelay
          rand).delays.get ⟨i, h⟩ =
        min (baseDelay * 2 ^ i) maxDelay * (3 / 4 + rand i * (1 / 2)) ∧
      3 / 4 ≤ 3 / 4 + rand i * (1 / 2) ∧
      3 / 4 + rand i * (1 / 2) ≤ 5 / 4) ∧
    ((∀ j ≤ maxRetries, ∃ e, op j = .err e ∧ retryable e = true) →
      ∃ e, op maxRetries = .err e ∧
        (asyncRetry op retryable maxRetries baseDelay maxDelay
            rand).result = .error e) := by
  refine ⟨asyncRetryAux_attempts_le op retryable baseDelay maxDelay rand
    maxRetries 0, ?_, ?_⟩
  · intro i h
    have hd := asyncRetryAux_delays_eq op retryable baseDelay maxDelay rand
      maxRetries 0 i _ (by rw [← List.get?_eq_get h]; rfl)
    obtain ⟨h0, h1⟩ := hrand i
    refine ⟨by simpa [calculateBackoffDelay] using hd, by linarith, by linarith⟩
  · intro hall
    have := asyncRetryAux_all_fail op retryable baseDelay maxDelay rand
      maxRetries 0 (fun j hj1 hj2 => hall j (by omega))
    simpa using this

/-- Witness for C6: three retryable failures with `max_retries = 2` give at
most three executions, and the final result re-raises the last error. -/
theorem asyncRetry_spec_witness :
    (asyncRetry (fun _ => Attempt.err "boom") (fun _ => true) 2 1 30
        (fun _ => 0) : RetryRun String ℕ).attemptsMade ≤ 3 ∧
    ∃ e, (fun _ => Attempt.err "boom" : ℕ → Attempt String ℕ) 2 =
        Attempt.err e ∧
      (asyncRetry (fun _ => Attempt.err "boom") (fun _ => true) 2 1 30
          (fun _ => 0) : RetryRun String ℕ).result = .error e := by
  have h := asyncRetry_spec (E := String) (A := ℕ)
    (fun _ => Attempt.err "boom") (fun _ => true) 2 1 30 (fun _ => 0)
    (fun i => by norm_num)
  exact ⟨h.1, h.2.2 (fun j hj => ⟨"boom", rfl, rfl⟩)⟩

/-- Every character surviving `cleanTicker`'s filter is a non-separator. -/
theorem mem_cleanTicker_not_separator (s : String) :
    ∀ c ∈ (cleanTicker s).toList, isSeparatorChar c = false := by
  intro c hc
  have h : c ∈ (s.toList.map Char.toUpper).filter
      (fun c => !isSeparatorChar c) := hc
  have := List.of_mem_filter h
  simpa using this

/-- Removing a separator character from an already cleaned ticker is the
identity. -/
theorem removeSep_cleanTicker (t : String) (sep : String) (c : Char)
    (hsep : sep.toList = [c]) (hc : isSeparatorChar c = true) :
    removeSep (cleanTicker t) sep = cleanTicker t := by
  have hfilter : (cleanTicker t).toList.filter (fun x => x ≠ c) =
      (cleanTicker t).toList := by
    rw [List.filter_eq_self]
    intro a ha
    have hns := mem_cleanTicker_not_separator t a ha
    by_cases hac : a = c
    · subst hac; rw [hns] at hc; cases hc
    · simp [hac]
  unfold removeSep
  rw [hsep]
  calc (⟨(cleanTicker t).toList.filter (fun x => x ≠ c)⟩ : String)
      = ⟨(cleanTicker t).toList⟩ := by rw [hfilter]
    _ = cleanTicker t := rfl

/-- Claim C7: `CurrencyNormalizer.normalize` is total on strings and never
raises (it is a Lean function); an input that cleans to the empty string
(empty or whitespace/separator-only) yields the empty string; an input with
no alias match, no network-suffix match and no fiat-suffix alias match
yields the cleaned (uppercased, separator-stripped) ticker unchanged; alias
resolution maps `"usdt-trc20"` to `"USDTTRC20"` and `"Sberbank"` to
`"SBERRUB"`. -/
theorem currencyNormalize_spec :
    (∀ t : String, cleanTicker t = "" →
      currencyNormalize CURRENCY_ALIASES t = "") ∧
    (∀ t : String,
      CURRENCY_ALIASES.lookup (cleanTicker t) = none →
      (∀ n ∈ NETWORK_SUFFIXES, pyEndsWith (cleanTicker t) n = false) →
      (∀ f ∈ FIAT_SUFFIXES,
        fiatAliasLookup CURRENCY_ALIASES (cleanTicker t) f = none) →
      currencyNormalize CURRENCY_ALIASES t = cleanTicker t) ∧
    currencyNormalize CURRENCY_ALIASES "usdt-trc20" = "USDTTRC20" ∧
    currencyNormalize CURRENCY_ALIASES "Sberbank" = "SBERRUB" := by
  refine ⟨?_, ?_, by decide, by decide⟩
  · intro t h
    by_cases ht : t = ""
    · simp [currencyNormalize, ht]
    · simp only [currencyNormalize, ht, if_false]
      simp only [h]
      decide
  · intro t h1 h2 h3
    by_cases ht : t = ""
    · subst ht; decide
    · have hdash : removeSep (cleanTicker t) "-" = cleanTicker t :=
        removeSep_cleanTicker t "-" '-' rfl (by decide)
      have hund : removeSep (cleanTicker t) "_" = cleanTicker t :=
        removeSep_cleanTicker t "_" '_' rfl (by decide)
      have hfind : NETWORK_SUFFIXES.find?
          (fun n => pyEndsWith (cleanTicker t) n) = none :=
        List.find?_eq_none.mpr (fun x hx => by simp [h2 x hx])
      have hfs : FIAT_SUFFIXES.findSome?
          (fun f => fiatAliasLookup CURRENCY_ALIASES (cleanTicker t) f) =
          none := by
        have r1 := h3 "RUB" (by decide)
        have r2 := h3 "USD" (by decide)
        have r3 := h3 "EUR" (by decide)
        have r4 := h3 "UAH" (by decide)
        have r5 := h3 "KZT" (by decide)
        simp [FIAT_SUFFIXES, List.findSome?_cons, r1, r2, r3, r4, r5]
      simp only [currencyNormalize, ht, if_false, List.map]
      rw [show removeSep (cleanTicker t) "" = cleanTicker t from rfl,
        hdash, hund]
      simp only [h1, hfind, hfs, List.findSome?_cons, List.findSome?_nil]

/-- Witness for C7: a whitespace-only ticker cleans to the empty string and
normalizes to the empty string; `"ZZTOKEN"` matches no alias, network
suffix or fiat combination and passes through unchanged. -/
theorem currencyNormalize_spec_witness :
    currencyNormalize CURRENCY_ALIASES "  " = "" ∧
    currencyNormalize CURRENCY_ALIASES "ZZtoken" = "ZZTOKEN" := by
  constructor
  · exact currencyNormalize_spec.1 "  " (by decide)
  · have h := currencyNormalize_spec.2.1 "ZZtoken" (by decide)
      (by decide) (by decide)
    exact h.trans (by decide)

/-- With `deduplicate=False` the `seen` set is never consulted. -/
theorem normalizeRatesAux_false_seen_irrelevant (defaults : DefaultFieldsConfig) :
    ∀ (raws : List RawRate) (s1 s2 : List (String × String × String)),
      normalizeRatesAux defaults false raws s1 =
        normalizeRatesAux defaults false raws s2 := by
  intro raws
  induction raws with
  | nil => intro s1 s2; rfl
  | cons raw rest ih =>
    intro s1 s2
    simp only [normalizeRatesAux]
    cases normalizeRate defaults raw with
    | error e => exact ih s1 s2
    | ok o =>
      cases o with
      | none => exact ih s1 s2
      | some r => simp [ih s1 s2]

/-- The deduplicating pass equals the spec-side first-per-key filter applied
to the non-deduplicating pass, for any starting `seen` set. -/
theorem normalizeRatesAux_dedupe_eq_keepFirst (defaults : DefaultFieldsConfig) :
    ∀ (raws : List RawRate) (seen : List (String × String × String)),
      normalizeRatesAux defaults true raws seen =
        keepFirstByKey (normalizeRatesAux defaults false raws seen) seen := by
  intro raws
  induction raws with
  | nil => intro seen; rfl
  | cons raw rest ih =>
    intro seen
    simp only [normalizeRatesAux]
    cases hn : normalizeRate defaults raw with
    | error e => exact ih seen
    | ok o =>
      cases o with
      | none => exact ih seen
      | some r =>
        by_cases hk : rateKey r ∈ seen
        · simp [keepFirstByKey, hk, ih seen]
        · simp only [keepFirstByKey, hk, if_neg, ih (rateKey r :: seen)]
          rw [normalizeRatesAux_false_seen_irrelevant defaults rest
            (rateKey r :: seen) seen]
          simp [hk]

/-- Claim C3, amended: `normalize_rates` with `deduplicate=True` keeps, for
each `(from_currency, to_currency, exchanger_id)` key, exactly the record
derived from the first input occurrence normalizing to that key and drops
later ones (it equals the first-per-key filter of the
`deduplicate=False` output, which returns every valid record in input
order); two records from the *same* source with the same pair yield 1
record with dedupe and 2 without.  Because the key includes the source id,
two *different* sources with the same `(USDT, RUB)` pair both survive
dedupe — see the counterexample. -/
theorem normalizeRates_dedupe_first_seen :
    (∀ (defaults : DefaultFieldsConfig) (raws : List RawRate),
      normalizeRates defaults raws true =
        keepFirstByKey (normalizeRates defaults raws false) []) ∧
    (normalizeRates {}
        [{ exchanger_id := "test", exchanger_name := "Test",
           from_currency := "USDT", to_currency := "RUB",
           in_amount := "1", out_amount := "92.5" },
         { exchanger_id := "test", exchanger_name := "Test",
           from_currency := "USDT", to_currency := "RUB",
           in_amount := "1", out_amount := "92.6" }] true).length = 1 ∧
    (normalizeRates {}
        [{ exchanger_id := "test", exchanger_name := "Test",
           from_currency := "USDT", to_currency := "RUB",
           in_amount := "1", out_amount := "92.5" },
         { exchanger_id := "test", exchanger_name := "Test",
           from_currency := "USDT", to_currency := "RUB",
           in_amount := "1", out_amount := "92.6" }] false).length = 2 := by
  refine ⟨?_, by decide, by decide⟩
  intro defaults raws
  exact normalizeRatesAux_dedupe_eq_keepFirst defaults raws []

/-- Claim C3 as stated is false on the code: two *different* sources
(`exchanger_id` `"e1"` and `"e2"`) returning the same `(USDT, RUB)` pair
yield 2 records under `deduplicate=True`, not 1, because the deduplication
key includes the source id. -/
theorem normalizeRates_two_sources_not_deduped :
    (normalizeRates {}
        [{ exchanger_id := "e1", exchanger_name := "E1",
           from_currency := "USDT", to_currency := "RUB",
           in_amount := "1", out_amount := "92.5" },
         { exchanger_id := "e2", exchanger_name := "E2",
           from_currency := "USDT", to_currency := "RUB",
           in_amount := "1", out_amount := "92.6" }] true).length = 2 ∧
    (normalizeRates {}
        [{ exchanger_id := "e1", exchanger_name := "E1",
           from_currency := "USDT", to_currency := "RUB",
           in_amount := "1", out_amount := "92.5" },
         { exchanger_id := "e2", exchanger_name := "E2",
           from_currency := "USDT", to_currency := "RUB",
           in_amount := "1", out_amount := "92.6" }] true).length ≠ 1 := by
  refine ⟨by decide, by decide⟩

/-- A record on which `normalize_rate` raises contributes nothing to the
batch, wherever it occurs and whatever the `seen` state. -/
theorem normalizeRatesAux_drops_error (defaults : DefaultFieldsConfig)
    (dedupe : Bool) (raw : RawRate) (e : String)
    (he : normalizeRate defaults raw = .error e) :
    ∀ (pre post : List RawRate) (seen : List (String × String × String)),
      normalizeRatesAux defaults dedupe (pre ++ raw :: post) seen =
        normalizeRatesAux defaults dedupe (pre ++ post) seen := by
  intro pre
  induction pre with
  | nil =>
    intro post seen
    simp [normalizeRatesAux, he]
  | cons p pre' ih =>
    intro post seen
    simp only [List.cons_append, normalizeRatesAux]
    cases normalizeRate defaults p with
    | error _ => exact ih post seen
    | ok o =>
      cases o with
      | none => exact ih post seen
      | some r =>
        cases dedupe with
        | false => simp [ih post seen]
        | true =>
          by_cases hk : rateKey r ∈ seen
          · simp [hk, ih post seen]
          · simp [hk, ih post (rateKey r :: seen)]

/-- Claim C10: for a `RawRate` with valid, distinct currencies whose
`in_amount` or `out_amount` does not parse (`_parse_amount` returns `None`),
`normalize_rate` raises (the `None` flows into a `<= 0` comparison) rather
than returning `None`; `normalize_rates` catches the exception and drops the
record, so the batch call — a total function here — never raises and
returns the same list as without the record. -/
theorem normalizeRate_unparseable_raises (defaults : DefaultFieldsConfig)
    (raw : RawRate)
    (hfrom : currencyNormalize CURRENCY_ALIASES raw.from_currency ≠ "")
    (hto : currencyNormalize CURRENCY_ALIASES raw.to_currency ≠ "")
    (hne : currencyNormalize CURRENCY_ALIASES raw.from_currency ≠
      currencyNormalize CURRENCY_ALIASES raw.to_currency)
    (hbad : parseAmount (some raw.in_amount) = none ∨
      parseAmount (some raw.out_amount) = none) :
    (∃ e, normalizeRate defaults raw = .error e) ∧
    ∀ (dedupe : Bool) (pre post : List RawRate),
      normalizeRates defaults (pre ++ raw :: post) dedupe =
        normalizeRates defaults (pre ++ post) dedupe := by
  have herr : ∃ e, normalizeRate defaults raw = .error e := by
    unfold normalizeRate
    rw [if_neg (by simp [hfrom, hto]), if_neg (by simpa using hne)]
    cases hin : parseAmount (some raw.in_amount) with
    | none => exact ⟨_, rfl⟩
    | some k =>
      cases hout : parseAmount (some raw.out_amount) with
      | none => exact ⟨_, rfl⟩
      | some v =>
        rcases hbad with hbadin | hbadout
        · rw [hin] at hbadin; cases hbadin
        · rw [hout] at hbadout; cases hbadout
  obtain ⟨e, he⟩ := herr
  exact ⟨⟨e, he⟩, fun dedupe pre post =>
    normalizeRatesAux_drops_error defaults dedupe raw e he pre post []⟩

/-- Witness for C10: `in_amount = "abc"` cleans to the empty string, parses
to `None`, and the single-record batch normalizes to the empty list. -/
theorem normalizeRate_unparseable_raises_witness :
    (∃ e, normalizeRate {}
        { exchanger_id := "t", exchanger_name := "T",
          from_currency := "BTC", to_currency := "RUB",
          in_amount := "abc", out_amount := "5" } = .error e) ∧
    normalizeRates {}
        [{ exchanger_id := "t", exchanger_name := "T",
           from_currency := "BTC", to_currency := "RUB",
           in_amount := "abc", out_amount := "5" }] true = [] := by
  have h := normalizeRate_unparseable_raises {}
    { exchanger_id := "t", exchanger_name := "T",
      from_currency := "BTC", to_currency := "RUB",
      in_amount := "abc", out_amount := "5" }
    (by decide) (by decide) (by decide) (Or.inl (by decide))
  exact ⟨h.1, h.2 true [] []⟩

/-- Round half to even is within half a unit of its argument. -/
theorem roundHalfEven_sub_abs_le (x : ℚ) :
    |(roundHalfEven x : ℚ) - x| ≤ 1 / 2 := by
  have hfl : (⌊x⌋ : ℚ) ≤ x := Int.floor_le x
  have hfu : x < ⌊x⌋ + 1 := Int.lt_floor_add_one x
  have hm : (mkRat ⌊x⌋ 1 : ℚ) = (⌊x⌋ : ℚ) := by
    rw [Rat.mkRat_eq_div]; simp
  have hh : (mkRat 1 2 : ℚ) = 1 / 2 := by
    rw [Rat.mkRat_eq_div]; norm_num
  simp only [roundHalfEven]
  rw [qSub_eq, hm, hh]
  split_ifs with h1 h2 h3 <;>
    (rw [abs_le]; constructor <;> push_cast <;> linarith)

/-- The value rounded at `d` decimal places differs from the original by at
most half of the last printed place. -/
theorem roundHalfEven_scale_tolerance (q : ℚ) (d : ℕ) :
    |(roundHalfEven (q * 10 ^ d) : ℚ) / 10 ^ d - q| ≤ 1 / (2 * 10 ^ d) := by
  have h := roundHalfEven_sub_abs_le (q * 10 ^ d)
  have hp : (0 : ℚ) < 10 ^ d := by positivity
  have he : (roundHalfEven (q * 10 ^ d) : ℚ) / 10 ^ d - q =
      ((roundHalfEven (q * 10 ^ d) : ℚ) - q * 10 ^ d) / 10 ^ d := by
    field_simp
    ring
  rw [he, abs_div, abs_of_pos hp, div_le_div_iff₀ hp (by positivity)]
  nlinarith [abs_nonneg ((roundHalfEven (q * 10 ^ d) : ℚ) - q * 10 ^ d)]

/-- Claim C4: whenever `in_amount` parses to `k > 0` and `out_amount` to
`v > 0` and `normalize_rate` returns a record, that record has
`in_amount = "1"` and `out_amount` equal to the formatted `v / k`; the
formatting rounds `v / k` half-to-even at `formatDecimals (v / k)` places,
which keeps the printed value within half of the last printed decimal place
of `v / k` (the "floating rounding tolerance" of the claim). -/
theorem normalizeRate_unit_rescaling (defaults : DefaultFieldsConfig)
    (raw : RawRate) (k v : ℚ) (r : NormalizedRate)
    (hk : parseAmount (some raw.in_amount) = some k) (hk0 : 0 < k)
    (hv : parseAmount (some raw.out_amount) = some v) (hv0 : 0 < v)
    (hr : normalizeRate defaults raw = .ok (some r)) :
    r.in_amount = "1" ∧
    r.out_amount = formatAmount (v / k) ∧
    |(roundHalfEven (v / k * 10 ^ formatDecimals (v / k)) : ℚ) /
        10 ^ formatDecimals (v / k) - v / k| ≤
      1 / (2 * 10 ^ formatDecimals (v / k)) := by
  have hmain : r.in_amount = "1" ∧ r.out_amount = formatAmount (v / k) := by
    have hkneg : ¬ (k ≤ 0) := not_le.mpr hk0
    have hvneg : ¬ (v ≤ 0) := not_le.mpr hv0
    simp only [normalizeRate, hk, hv, if_neg hkneg, if_neg hvneg] at hr
    split_ifs at hr with hc1 hc2 hone
    · exact absurd hr (by simp)
    · exact absurd hr (by simp)
    · -- k ≠ 1: the record rescales, out becomes v / k
      simp only [Except.ok.injEq, Option.some.injEq] at hr
      subst hr
      constructor
      · show formatAmount 1 = "1"
        decide
      · show formatAmount (qDiv v k) = formatAmount (v / k)
        rw [qDiv_eq]
    · -- k = 1: no rescaling, and v / 1 = v
      simp only [Except.ok.injEq, Option.some.injEq] at hr
      subst hr
      have hk1 : k = 1 := by simpa using hone
      subst hk1
      constructor
      · show formatAmount 1 = "1"
        decide
      · show formatAmount v = formatAmount (v / 1)
        rw [div_one]
  exact ⟨hmain.1, hmain.2,
    roundHalfEven_scale_tolerance (v / k) (formatDecimals (v / k))⟩

/-- Witness for C4: the spec scenario `in = "0.001"`, `out = "8500"`
normalizes to `in_amount = "1"`, `out_amount = "8500000"`. -/
theorem normalizeRate_unit_rescaling_witness :
    normalizeRate {}
        { exchanger_id := "test", exchanger_name := "Test",
          from_currency := "BTC", to_currency := "RUB",
          in_amount := "0.001", out_amount := "8500" } =
      .ok (some { from_currency := "BTC", to_currency := "RUB",
                  in_amount := "1", out_amount := "8500000",
                  amount := "0", min_amount := "0",
                  max_amount := "999999999", param := "0",
                  exchanger_id := some "test",
                  exchanger_name := some "Test" }) ∧
    ({ from_currency := "BTC", to_currency := "RUB",
       in_amount := "1", out_amount := "8500000",
       amount := "0", min_amount := "0",
       max_amount := "999999999", param := "0",
       exchanger_id := some "test",
       exchanger_name := some "Test" } : NormalizedRate).in_amount = "1" ∧
    ({ from_currency := "BTC", to_currency := "RUB",
       in_amount := "1", out_amount := "8500000",
       amount := "0", min_amount := "0",
       max_amount := "999999999", param := "0",
       exchanger_id := some "test",
       exchanger_name := some "Test" } : NormalizedRate).out_amount =
      "8500000" := by
  have h := normalizeRate_unit_rescaling {}
    { exchanger_id := "test", exchanger_name := "Test",
      from_currency := "BTC", to_currency := "RUB",
      in_amount := "0.001", out_amount := "8500" }
    (mkRat 1 1000) (mkRat 8500 1)
    { from_currency := "BTC", to_currency := "RUB",
      in_amount := "1", out_amount := "8500000",
      amount := "0", min_amount := "0",
      max_amount := "999999999", param := "0",
      exchanger_id := some "test", exchanger_name := some "Test" }
    (by decide) (by decide) (by decide) (by decide) (by decide)
  refine ⟨by decide, h.1, h.2.1.trans ?_⟩
  rw [← qDiv_eq]
  decide

/-- `digitChar n` is a decimal digit for `n < 10`. -/
theorem digitChar_isDigit (n : ℕ) (h : n < 10) : (digitChar n).isDigit = true := by
  interval_cases n <;> decide

/-- Every character produced by `natDigitsAux` is a decimal digit. -/
theorem mem_natDigitsAux_isDigit :
    ∀ (fuel n : ℕ), ∀ c ∈ natDigitsAux fuel n, c.isDigit = true := by
  intro fuel
  induction fuel with
  | zero => intro n c h; simp [natDigitsAux] at h
  | succ f ih =>
    intro n c h
    simp only [natDigitsAux] at h
    by_cases hn : n < 10
    · rw [if_pos hn] at h
      simp only [List.mem_singleton] at h
      subst h
      exact digitChar_isDigit n hn
    · rw [if_neg hn] at h
      rcases List.mem_append.mp h with h1 | h2
      · exact ih (n / 10) c h1
      · simp only [List.mem_singleton] at h2
        subst h2
        exact digitChar_isDigit (n % 10) (Nat.mod_lt n (by norm_num))

/-- Every character of `natDigits n` is a decimal digit. -/
theorem mem_natDigits_isDigit (n : ℕ) : ∀ c ∈ natDigits n, c.isDigit = true :=
  mem_natDigitsAux_isDigit (n + 1) n

/-- Every character of `fixedFormat q d` is a digit, a minus sign, or a dot. -/
theorem mem_fixedFormat (q : ℚ) (d : ℕ) :
    ∀ c ∈ fixedFormat q d, c.isDigit = true ∨ c = '-' ∨ c = '.' := by
  intro c h
  simp only [fixedFormat, List.append_assoc, List.mem_append] at h
  rcases h with hsign | hint | hdot | hpad
  · right; left
    revert hsign
    split <;> simp_all
  · exact Or.inl (mem_natDigits_isDigit _ c hint)
  · simp only [List.mem_singleton] at hdot
    exact Or.inr (Or.inr hdot)
  · simp only [padLeftZeros, List.mem_append] at hpad
    rcases hpad with hz | hd
    · exact Or.inl (by have := List.eq_of_mem_replicate hz; subst this; decide)
    · exact Or.inl (mem_natDigits_isDigit _ c hd)

/-- `fixedFormat` prints exactly one dot. -/
theorem count_dot_fixedFormat (q : ℚ) (d : ℕ) :
    (fixedFormat q d).count '.' = 1 := by
  have hdig : ∀ (m : ℕ), (natDigits m).count '.' = 0 := by
    intro m
    rw [List.count_eq_zero]
    intro hmem
    have := mem_natDigits_isDigit m '.' hmem
    simp at this
  have hsign : ∀ (n : ℤ), ((if n < 0 then ['-'] else []) : List Char).count '.' = 0 := by
    intro n; split <;> decide
  simp [fixedFormat, List.count_append, hsign, hdig, padLeftZeros,
    List.count_replicate]

/-- `dropTrailing` yields a sublist. -/
theorem dropTrailing_sublist (l : List Char) (c : Char) :
    (dropTrailing l c).Sublist l := by
  have h := (List.dropWhile_sublist (l := l.reverse) (· = c)).reverse
  simpa [dropTrailing] using h

/-- The head surviving `dropWhile` falsifies the predicate. -/
theorem head?_dropWhile_false {α : Type} (p : α → Bool) :
    ∀ (l : List α) (a : α), (l.dropWhile p).head? = some a → p a = false := by
  intro l
  induction l with
  | nil => intro a h; simp at h
  | cons x xs ih =>
    intro a h
    rw [List.dropWhile_cons] at h
    by_cases hp : p x = true
    · rw [if_pos hp] at h
      exact ih a h
    · rw [if_neg hp] at h
      simp only [List.head?_cons, Option.some.injEq] at h
      subst h
      exact Bool.not_eq_true _ |>.mp hp

/-- The last character after `dropTrailing l c` is never `c`. -/
theorem getLast?_dropTrailing (l : List Char) (c : Char) :
    ∀ a, (dropTrailing l c).getLast? = some a → a ≠ c := by
  intro a h
  simp only [dropTrailing] at h
  rw [List.getLast?_reverse] at h
  have := head?_dropWhile_false (· = c) l.reverse a h
  simpa using this

/-- `dropTrailing` splits the list into the kept prefix and an all-`c`
suffix. -/
theorem dropTrailing_decomposition (l : List Char) (c : Char) :
    ∃ sfx, l = dropTrailing l c ++ sfx ∧ ∀ a ∈ sfx, a = c := by
  refine ⟨(l.reverse.takeWhile (· = c)).reverse, ?_, ?_⟩
  · conv_lhs => rw [← List.reverse_reverse l,
      ← List.takeWhile_append_dropWhile (· = c) l.reverse]
    rw [List.reverse_append]
    rfl
  · intro a ha
    have := List.mem_takeWhile_imp (List.mem_reverse.mp ha)
    simpa using this

/-- `_format_amount` output contains only digits, `'-'` and `'.'` (never a
scientific-notation `'e'`), and when it contains a decimal point it ends in
neither `'0'` nor `'.'` (trailing zeros stripped). -/
theorem formatAmount_shape (q : ℚ) :
    (∀ c ∈ (formatAmount q).toList, c.isDigit = true ∨ c = '-' ∨ c = '.') ∧
    ('.' ∈ (formatAmount q).toList →
      ∀ a, (formatAmount q).toList.getLast? = some a → a ≠ '0' ∧ a ≠ '.') := by
  by_cases h0 : q = 0
  · subst h0
    exact ⟨by decide, by decide⟩
  · have hs1dot : '.' ∈ fixedFormat q (formatDecimals q) :=
      List.count_pos_iff.mp (by rw [count_dot_fixedFormat]; norm_num)
    have hcontains : (fixedFormat q (formatDecimals q)).contains '.' = true :=
      List.elem_iff.mpr hs1dot
    have hfa : formatAmount q =
        ⟨dropTrailing (dropTrailing (fixedFormat q (formatDecimals q)) '0')
          '.'⟩ := by
      simp only [formatAmount, h0, if_false, hcontains, if_true]
    rw [hfa]
    constructor
    · intro c hc
      have hmem : c ∈ fixedFormat q (formatDecimals q) :=
        ((dropTrailing_sublist _ '.').trans (dropTrailing_sublist _ '0')).subset
          hc
      exact mem_fixedFormat q _ c hmem
    · intro hdot a hlast
      refine ⟨?_, getLast?_dropTrailing _ '.' a hlast⟩
      obtain ⟨sfx, hdec, hall⟩ :=
        dropTrailing_decomposition
          (dropTrailing (fixedFormat q (formatDecimals q)) '0') '.'
      rcases sfx with _ | ⟨x, sfx'⟩
      · have heq : dropTrailing
            (dropTrailing (fixedFormat q (formatDecimals q)) '0') '.' =
            dropTrailing (fixedFormat q (formatDecimals q)) '0' := by
          simpa using hdec.symm
        rw [heq] at hlast
        exact getLast?_dropTrailing _ '0' a hlast
      · exfalso
        have hx : x = '.' := hall x (by simp)
        have hcount1 :
            (dropTrailing (fixedFormat q (formatDecimals q)) '0').count '.' ≤
              1 := by
          have h := (dropTrailing_sublist (fixedFormat q (formatDecimals q))
            '0').count_le '.'
          rw [count_dot_fixedFormat] at h
          exact h
        have hsplit :
            (dropTrailing (fixedFormat q (formatDecimals q)) '0').count '.' =
              (dropTrailing
                (dropTrailing (fixedFormat q (formatDecimals q)) '0')
                '.').count '.' + (x :: sfx').count '.' := by
          conv_lhs => rw [hdec]
          rw [List.count_append]
        have hge1 : 1 ≤ (x :: sfx').count '.' := by
          subst hx; simp [List.count_cons]
        have hzero :
            (dropTrailing (dropTrailing (fixedFormat q (formatDecimals q))
              '0') '.').count '.' = 0 := by omega
        exact List.count_eq_zero.mp hzero hdot

/-- Claim C5, amended: the `in_amount` and `out_amount` of every record
returned by `normalize_rate` are formatted with trailing zeros stripped and
never in scientific notation; but `amount`, `min_amount` and `max_amount`,
when they come from a parseable raw value, are rendered with Python
`str()` of the parsed float, which keeps a trailing `".0"` on integral
values (and switches to scientific notation for magnitudes ≥ 1e16) —
exactly what the repository's own tests assert
(`result.amount == "1000000.0"`). -/
theorem normalizeRate_decimal_formatting (defaults : DefaultFieldsConfig)
    (raw : RawRate) (r : NormalizedRate)
    (hr : normalizeRate defaults raw = .ok (some r)) :
    (∀ c ∈ r.in_amount.toList, c.isDigit = true ∨ c = '-' ∨ c = '.') ∧
    ('.' ∈ r.in_amount.toList →
      ∀ a, r.in_amount.toList.getLast? = some a → a ≠ '0' ∧ a ≠ '.') ∧
    (∀ c ∈ r.out_amount.toList, c.isDigit = true ∨ c = '-' ∨ c = '.') ∧
    ('.' ∈ r.out_amount.toList →
      ∀ a, r.out_amount.toList.getLast? = some a → a ≠ '0' ∧ a ≠ '.') ∧
    (∀ q', parseAmount raw.reserve = some q' → r.amount = pyFloatStr q') ∧
    (∀ m q', raw.min_amount = some m → parseAmount (some m) = some q' →
      r.min_amount = pyFloatStr q') ∧
    (∀ m q', raw.max_amount = some m → parseAmount (some m) = some q' →
      r.max_amount = pyFloatStr q') := by
  cases hin : parseAmount (some raw.in_amount) with
  | none =>
    simp only [normalizeRate, hin] at hr
    split_ifs at hr <;> simp_all
  | some k =>
    cases hout : parseAmount (some raw.out_amount) with
    | none =>
      simp only [normalizeRate, hin, hout] at hr
      split_ifs at hr <;> simp_all
    | some v =>
      simp only [normalizeRate, hin, hout] at hr
      split_ifs at hr <;>
        simp only [Except.ok.injEq, Option.some.injEq, reduceCtorEq] at hr <;>
        (subst hr
         exact ⟨fun c hc => (formatAmount_shape _).1 c hc,
           fun hd a ha => (formatAmount_shape _).2 hd a ha,
           fun c hc => (formatAmount_shape _).1 c hc,
           fun hd a ha => (formatAmount_shape _).2 hd a ha,
           fun q' hq' => by simp [hq'],
           fun m q' hm hq' => by simp [hm, hq'],
           fun m q' hm hq' => by simp [hm, hq']⟩)

/-- Witness for the amended C5: a record with `reserve = "1000000"` carries
`amount = "1000000.0"` (Python `str(float)`), while its `out_amount`
`"92.5"` is stripped and non-scientific. -/
theorem normalizeRate_decimal_formatting_witness :
    (normalizeRate {}
        { exchanger_id := "w", exchanger_name := "W",
          from_currency := "USDT-TRC20", to_currency := "Sberbank",
          in_amount := "1", out_amount := "92.5",
          reserve := some "1000000" } =
      .ok (some { from_currency := "USDTTRC20", to_currency := "SBERRUB",
                  in_amount := "1", out_amount := "92.5",
                  amount := "1000000.0", min_amount := "0",
                  max_amount := "999999999", param := "0",
                  exchanger_id := some "w",
                  exchanger_name := some "W" })) ∧
    ({ from_currency := "USDTTRC20", to_currency := "SBERRUB",
       in_amount := "1", out_amount := "92.5",
       amount := "1000000.0", min_amount := "0",
       max_amount := "999999999", param := "0",
       exchanger_id := some "w",
       exchanger_name := some "W" } : NormalizedRate).amount =
      pyFloatStr (mkRat 1000000 1) := by
  constructor
  · decide
  · exact (normalizeRate_decimal_formatting {}
      { exchanger_id := "w", exchanger_name := "W",
        from_currency := "USDT-TRC20", to_currency := "Sberbank",
        in_amount := "1", out_amount := "92.5",
        reserve := some "1000000" }
      { from_currency := "USDTTRC20", to_currency := "SBERRUB",
        in_amount := "1", out_amount := "92.5",
        amount := "1000000.0", min_amount := "0",
        max_amount := "999999999", param := "0",
        exchanger_id := some "w", exchanger_name := some "W" }
      (by decide)).2.2.2.2.1 (mkRat 1000000 1) (by decide)

/-- Claim C5 as stated is false on the code: with `reserve = "100"` the
produced record's `amount` is `"100.0"` — Python `str()` of the parsed
float — which contains a decimal point yet ends in `'0'`, so it is not
trailing-zero-stripped. -/
theorem normalizeRate_amount_keeps_trailing_zero :
    (normalizeRate {}
        { exchanger_id := "t", exchanger_name := "T",
          from_currency := "BTC", to_currency := "RUB",
          in_amount := "1", out_amount := "92.5",
          reserve := some "100" } =
      .ok (some { from_currency := "BTC", to_currency := "RUB",
                  in_amount := "1", out_amount := "92.5",
                  amount := "100.0", min_amount := "0",
                  max_amount := "999999999", param := "0",
                  exchanger_id := some "t",
                  exchanger_name := some "T" })) ∧
    ("100.0".toList.getLast? = some '0' ∧ '.' ∈ "100.0".toList) := by
  refine ⟨by decide, by decide, by decide⟩

end RateExporter
